import Mathlib

/-!
Verification of the llm-proxy request-observation pipeline.

Go strings are embedded as `List Char` (Go's `strings` package operations
are modelled by the `go*` functions below, each mirroring the corresponding
Go function).  Response bodies are opaque byte lists.  Fallible provider
parsers return a pair `(metadata?, error?)` mirroring Go's multiple return
values.
-/

/-- A Go string, embedded as its character list. -/
abbrev GoString := List Char

/-- Conversion from a Lean string literal to a `GoString`. -/
def gs (s : String) : GoString := s.toList

/-- Go `strings.Split(s, "/")`: the substrings between the slashes of `s`
(an empty input yields one empty field, as in Go). -/
def splitOnSlash : GoString → List GoString
  | [] => [[]]
  | c :: rest =>
    if c = '/' then [] :: splitOnSlash rest
    else
      match splitOnSlash rest with
      | [] => [[c]]
      | s :: ss => (c :: s) :: ss

/-- Go `strings.Contains(s, sub)`. -/
def goContains (sub : GoString) : GoString → Bool
  | [] => sub.isPrefixOf []
  | c :: t => sub.isPrefixOf (c :: t) || goContains sub t

/-- The first non-empty string of a list, or the empty string
(used only to state spec-side priority orders). -/
def firstNonEmptyG : List GoString → GoString
  | [] => []
  | s :: rest => if s ≠ [] then s else firstNonEmptyG rest

/-- The inverse of `splitOnSlash`: interleave the fields with slashes. -/
def joinSlash : List GoString → GoString
  | [] => []
  | s :: ss =>
    match ss with
    | [] => s
    | _ :: _ => s ++ '/' :: joinSlash ss

theorem splitOnSlash_ne_nil (s : GoString) : splitOnSlash s ≠ [] := by
  cases s with
  | nil => simp [splitOnSlash]
  | cons c rest =>
    simp only [splitOnSlash]
    split
    · simp
    · split <;> simp_all

theorem splitOnSlash_cons_slash (t : GoString) :
    splitOnSlash ('/' :: t) = [] :: splitOnSlash t := by
  simp [splitOnSlash]

theorem splitOnSlash_cons_ne (c : Char) (t : GoString) (hc : c ≠ '/') :
    splitOnSlash (c :: t) =
      match splitOnSlash t with
      | [] => [[c]]
      | s :: ss => (c :: s) :: ss := by
  simp [splitOnSlash, hc]

theorem splitOnSlash_no_slash (s : GoString) (h : '/' ∉ s) :
    splitOnSlash s = [s] := by
  induction s with
  | nil => simp [splitOnSlash]
  | cons c t ih =>
    have hc : c ≠ '/' := by
      intro hce
      exact h (by simp [hce])
    have ht : '/' ∉ t := fun hm => h (List.mem_cons_of_mem _ hm)
    rw [splitOnSlash_cons_ne c t hc, ih ht]

theorem splitOnSlash_append (xs ys : GoString) (h : '/' ∉ xs) :
    splitOnSlash (xs ++ '/' :: ys) = xs :: splitOnSlash ys := by
  induction xs with
  | nil => simp [splitOnSlash_cons_slash]
  | cons c t ih =>
    have hc : c ≠ '/' := by
      intro hc
      exact h (by simp [hc])
    have ht : '/' ∉ t := fun hm => h (List.mem_cons_of_mem _ hm)
    rw [List.cons_append, splitOnSlash_cons_ne c _ hc, ih ht]

theorem mem_splitOnSlash_no_slash (s : GoString) :
    ∀ u ∈ splitOnSlash s, '/' ∉ u := by
  induction s with
  | nil =>
    intro u hu
    simp [splitOnSlash] at hu
    simp [hu]
  | cons c t ih =>
    intro u hu
    by_cases hc : c = '/'
    · subst hc
      rw [splitOnSlash_cons_slash] at hu
      rcases List.mem_cons.mp hu with hu | hu
      · simp [hu]
      · exact ih u hu
    · rw [splitOnSlash_cons_ne c t hc] at hu
      rcases hsp : splitOnSlash t with _ | ⟨s₀, ss⟩
      · exact absurd hsp (splitOnSlash_ne_nil t)
      · rw [hsp] at hu
        rcases List.mem_cons.mp hu with hu | hu
        · subst hu
          intro hm
          rcases List.mem_cons.mp hm with hm | hm
          · exact hc hm.symm
          · exact ih s₀ (by rw [hsp]; exact List.mem_cons_self _ _) hm
        · exact ih u (by rw [hsp]; exact List.mem_cons_of_mem _ hu)

theorem joinSlash_single (s : GoString) : joinSlash [s] = s := rfl

theorem joinSlash_cons_cons (s s' : GoString) (ss : List GoString) :
    joinSlash (s :: s' :: ss) = s ++ '/' :: joinSlash (s' :: ss) := rfl

theorem joinSlash_splitOnSlash (s : GoString) :
    joinSlash (splitOnSlash s) = s := by
  induction s with
  | nil => simp [splitOnSlash, joinSlash]
  | cons c t ih =>
    by_cases hc : c = '/'
    · subst hc
      rw [splitOnSlash_cons_slash]
      rcases hsp : splitOnSlash t with _ | ⟨s₀, ss⟩
      · exact absurd hsp (splitOnSlash_ne_nil t)
      · rw [hsp] at ih
        rw [joinSlash_cons_cons, ih]
        rfl
    · rw [splitOnSlash_cons_ne c t hc]
      rcases hsp : splitOnSlash t with _ | ⟨s₀, ss⟩
      · exact absurd hsp (splitOnSlash_ne_nil t)
      · rw [hsp] at ih
        cases ss with
        | nil =>
          rw [joinSlash_single] at ih
          simp [joinSlash_single, ih]
        | cons s₁ ss' =>
          rw [joinSlash_cons_cons] at ih
          rw [joinSlash_cons_cons, List.cons_append, ih]

/-!
Data model.  An inbound HTTP request is embedded by the fields the core
reads: URL path, the context value stored under `userIDContextKey` by the
meta-URL rewriting middleware, the headers consulted by the middleware
(Go's `Header.Get` returns the empty string for an absent header, so
headers are plain strings with `[]` meaning absent), the `llm_user_id`
query parameter, and the remote address.
-/

structure Request where
  path : GoString
  ctxUserID : Option GoString
  headerXUserID : GoString
  headerAuthorization : GoString
  headerXForwardedFor : GoString
  headerXRealIP : GoString
  queryLLMUserID : GoString
  remoteAddr : GoString
deriving Repr, DecidableEq

/-- Bytes of an HTTP response body (opaque to the middleware). -/
abbrev Byte := Nat

/-- Token-usage metadata, from `providers.LLMResponseMetadata`. -/
structure LLMResponseMetadata where
  provider : GoString
  model : GoString
  requestID : GoString
  inputTokens : Int
  outputTokens : Int
  thoughtTokens : Int
  totalTokens : Int
  finishReason : GoString
  isStreaming : Bool
deriving Repr, DecidableEq, Inhabited

/-- A provider adapter, with the two operations the middleware under
verification invokes: response-metadata parsing (returning Go's
`(metadata, err)` pair) and request-body user-ID extraction. -/
structure Provider where
  name : GoString
  parseResponseMetadata : List Byte → Bool → Option LLMResponseMetadata × Option GoString
  userIDFromRequest : Request → GoString

/-- The provider-specific extraction step of `ExtractUserIDFromRequest`
(`provider.UserIDFromRequest(req)` when a provider resolved, "" for nil). -/
def providerUserID (req : Request) (provider : Option Provider) : GoString :=
  match provider with
  | some p => p.userIDFromRequest req
  | none => []

/-- The meta-URL user-ID candidate of `ExtractUserIDFromRequest`
(priority 1): for a path with the `/meta/` prefix that splits into at
least three fields, the third field `parts[2]`; otherwise the empty
string, which makes the code fall through. -/
def metaPathUserID (path : GoString) : GoString :=
  if (gs "/meta/").isPrefixOf path then
    let parts := splitOnSlash path
    if 3 ≤ parts.length then parts.getD 2 [] else []
  else []

/-- `ExtractIPAddressFromRequest` from
`internal/middleware/token_parsing.go`. -/
def ExtractIPAddressFromRequest (req : Request) : GoString :=
  if req.headerXForwardedFor ≠ [] then req.headerXForwardedFor
  else if req.headerXRealIP ≠ [] then req.headerXRealIP
  else req.remoteAddr

/-- `ExtractUserIDFromRequest` from
`internal/middleware/token_parsing.go`: context value, meta-URL path
segment, `X-User-ID` header, provider body field, `llm_user_id` query
parameter, bearer token, client IP, in that order.  The context check
`ok && userID != ""` is `req.ctxUserID.getD [] ≠ []` here (an absent
value and a present empty string both fall through). -/
def ExtractUserIDFromRequest (req : Request) (provider : Option Provider) : GoString :=
  if req.ctxUserID.getD [] ≠ [] then req.ctxUserID.getD []
  else if metaPathUserID req.path ≠ [] then metaPathUserID req.path
  else if req.headerXUserID ≠ [] then req.headerXUserID
  else if providerUserID req provider ≠ [] then providerUserID req provider
  else if req.queryLLMUserID ≠ [] then req.queryLLMUserID
  else if req.headerAuthorization ≠ [] ∧ (gs "Bearer ").isPrefixOf req.headerAuthorization then
    let token := req.headerAuthorization.drop (gs "Bearer ").length
    if 8 < token.length then gs "token:" ++ token.take 8
    else gs "token:" ++ token
  else gs "ip:" ++ ExtractIPAddressFromRequest req

/-- The bearer-token identity as the specification words it: the token of
a `Bearer` authorization header, truncated to its first 8 characters and
prefixed with `token:`. -/
def bearerTokenCandidate (auth : GoString) : GoString :=
  if (gs "Bearer ").isPrefixOf auth then
    gs "token:" ++ (auth.drop (gs "Bearer ").length).take 8
  else []

/-- The identity candidates in the specification's priority order. -/
def userIDCandidates (req : Request) (provider : Option Provider) : List GoString :=
  [req.ctxUserID.getD [],
   metaPathUserID req.path,
   req.headerXUserID,
   providerUserID req provider,
   req.queryLLMUserID,
   bearerTokenCandidate req.headerAuthorization,
   gs "ip:" ++ ExtractIPAddressFromRequest req]

theorem bearer_isPrefixOf_ne_nil (auth : GoString)
    (h : (gs "Bearer ").isPrefixOf auth = true) : auth ≠ [] := by
  intro he
  rw [he] at h
  simp [gs] at h

theorem extract_eq_firstNonEmpty (req : Request) (provider : Option Provider) :
    ExtractUserIDFromRequest req provider
      = firstNonEmptyG (userIDCandidates req provider) := by
  have htok : gs "token:" ≠ [] := by decide
  have hip : gs "ip:" ≠ [] := by decide
  unfold ExtractUserIDFromRequest userIDCandidates bearerTokenCandidate
  simp only [firstNonEmptyG]
  by_cases h1 : req.ctxUserID.getD [] = []
  · by_cases h2 : metaPathUserID req.path = []
    · by_cases h3 : req.headerXUserID = []
      · by_cases h4 : providerUserID req provider = []
        · by_cases h5 : req.queryLLMUserID = []
          · by_cases hb : (gs "Bearer ").isPrefixOf req.headerAuthorization
            · have hauth := bearer_isPrefixOf_ne_nil _ hb
              by_cases hlen :
                  8 < (req.headerAuthorization.drop (gs "Bearer ").length).length
              · simp [h1, h2, h3, h4, h5, hb, hauth, hlen, htok]
              · have hle : (req.headerAuthorization.drop (gs "Bearer ").length).length ≤ 8 := by
                  omega
                simp [h1, h2, h3, h4, h5, hb, hauth, hlen, htok,
                  List.take_of_length_le hle]
            · simp [h1, h2, h3, h4, h5, hb, hip]
          · simp [h1, h2, h3, h4, h5]
        · simp [h1, h2, h3, h4]
      · simp [h1, h2, h3]
    · simp [h1, h2]
  · simp [h1]

theorem firstNonEmptyG_ne_nil (l : List GoString) (h : ∃ s ∈ l, s ≠ []) :
    firstNonEmptyG l ≠ [] := by
  induction l with
  | nil => simp at h
  | cons s rest ih =>
    by_cases hs : s = []
    · subst hs
      have : ∃ s ∈ rest, s ≠ [] := by
        rcases h with ⟨u, hu, hune⟩
        rcases List.mem_cons.mp hu with hu | hu
        · exact absurd hu hune
        · exact ⟨u, hu, hune⟩
      simpa [firstNonEmptyG] using ih this
    · simp [firstNonEmptyG, hs]

/-- Claim C1: the resolved user identity is the first non-empty value in
the priority order context value, meta-URL path segment, `X-User-ID`
header, provider-specific body field, `llm_user_id` query parameter,
truncated bearer token prefixed with `token:`, client IP prefixed with
`ip:`. -/
theorem claim_C1_identity_priority (req : Request) (provider : Option Provider) :
    ExtractUserIDFromRequest req provider
      = firstNonEmptyG (userIDCandidates req provider) :=
  extract_eq_firstNonEmpty req provider

/-- Claim C10: identity resolution never returns the empty string; when
no higher-priority source yields an identity it falls back to `ip:`
followed by the extracted IP address, and the extracted IP address is
itself non-empty whenever the remote address is. -/
theorem claim_C10_identity_never_empty (req : Request) (provider : Option Provider) :
    ExtractUserIDFromRequest req provider ≠ []
    ∧ (req.ctxUserID.getD [] = [] → metaPathUserID req.path = [] →
        req.headerXUserID = [] → providerUserID req provider = [] →
        req.queryLLMUserID = [] →
        (gs "Bearer ").isPrefixOf req.headerAuthorization = false →
        ExtractUserIDFromRequest req provider
          = gs "ip:" ++ ExtractIPAddressFromRequest req)
    ∧ (req.remoteAddr ≠ [] → ExtractIPAddressFromRequest req ≠ []) := by
  have hip : gs "ip:" ≠ [] := by decide
  refine ⟨?_, ?_, ?_⟩
  · rw [extract_eq_firstNonEmpty]
    apply firstNonEmptyG_ne_nil
    refine ⟨gs "ip:" ++ ExtractIPAddressFromRequest req, ?_, ?_⟩
    · simp [userIDCandidates]
    · simp only [ne_eq, List.append_eq_nil]
      rintro ⟨hcon, -⟩
      exact hip hcon
  · intro h1 h2 h3 h4 h5 hb
    rw [extract_eq_firstNonEmpty]
    simp [userIDCandidates, firstNonEmptyG, h1, h2, h3, h4, h5,
      bearerTokenCandidate, hb]
  · intro hra
    unfold ExtractIPAddressFromRequest
    split_ifs <;> simp_all

/-- Concrete instance of claim C10: a request with no identity sources
and remote address 192.168.1.100:8080 resolves to the `ip:`-prefixed
address, which is non-empty. -/
theorem claim_C10_witness :
    ExtractUserIDFromRequest
        ⟨gs "/test", none, [], [], [], [], [], gs "192.168.1.100:8080"⟩ none
      = gs "ip:" ++ ExtractIPAddressFromRequest
        ⟨gs "/test", none, [], [], [], [], [], gs "192.168.1.100:8080"⟩
    ∧ ExtractIPAddressFromRequest
        ⟨gs "/test", none, [], [], [], [], [], gs "192.168.1.100:8080"⟩ ≠ [] := by
  exact ⟨(claim_C10_identity_never_empty _ none).2.1 (by decide) (by decide)
      (by decide) (by decide) (by decide) (by decide),
    (claim_C10_identity_never_empty
        ⟨gs "/test", none, [], [], [], [], [], gs "192.168.1.100:8080"⟩ none).2.2
      (by decide)⟩

/-!
Provider classification (`GetProviderFromRequest`).  The provider
registry (`providers.ProviderManager`) is not among the sources.
Modelled from the spec: the registry "maintains an insertion-order map
name→adapter", the server registers all four adapters at startup, and
`GetProvider(name)` therefore yields the adapter named `name`; the
classification function is thus embedded as returning which provider
name resolves (`none` embedding Go's nil provider).
-/

inductive ProviderName where
  | openai
  | anthropic
  | gemini
  | groq
deriving DecidableEq, Repr

/-- The registered name of each provider adapter. -/
def provName : ProviderName → GoString
  | .openai => gs "openai"
  | .anthropic => gs "anthropic"
  | .gemini => gs "gemini"
  | .groq => gs "groq"

/-- The `switch providerName` of `GetProviderFromRequest`: which of the
four registered names a path segment matches. -/
def provNameOf (s : GoString) : Option ProviderName :=
  if s = gs "openai" then some .openai
  else if s = gs "anthropic" then some .anthropic
  else if s = gs "gemini" then some .gemini
  else if s = gs "groq" then some .groq
  else none

/-- The direct-provider-path checks of `GetProviderFromRequest`
(its "legacy support" chain of `strings.HasPrefix` tests). -/
def legacyProviderFromPath (path : GoString) : Option ProviderName :=
  if (gs "/openai/").isPrefixOf path then some .openai
  else if (gs "/anthropic/").isPrefixOf path then some .anthropic
  else if (gs "/gemini/").isPrefixOf path then some .gemini
  else if (gs "/groq/").isPrefixOf path then some .groq
  else none

/-- `GetProviderFromRequest` from
`internal/middleware/token_parsing.go`: the `/meta/:userID/provider/`
pattern is tried first (falling through to the direct checks when it
does not resolve), then the direct provider-path checks. -/
def GetProviderFromRequest (path : GoString) : Option ProviderName :=
  if (gs "/meta/").isPrefixOf path then
    if 4 ≤ (splitOnSlash path).length then
      match provNameOf ((splitOnSlash path).getD 3 []) with
      | some p => some p
      | none => legacyProviderFromPath path
    else legacyProviderFromPath path
  else legacyProviderFromPath path

theorem provName_no_slash (p : ProviderName) : '/' ∉ provName p := by
  cases p <;> decide

theorem provNameOf_provName (p : ProviderName) :
    provNameOf (provName p) = some p := by
  cases p <;> decide

theorem provNameOf_eq_some (s : GoString) (p : ProviderName)
    (h : provNameOf s = some p) : s = provName p := by
  unfold provNameOf at h
  split_ifs at h with h1 h2 h3 h4 <;> simp_all [provName] <;>
    simp [← h, provName]

theorem not_prefix_of_append (l₁ l₂ t : List Char)
    (h1 : ¬ l₁ <+: l₂) (h2 : ¬ l₂ <+: l₁) : ¬ l₁ <+: (l₂ ++ t) := by
  intro hp
  rcases List.prefix_or_prefix_of_prefix hp (List.prefix_append l₂ t) with h | h
  · exact h1 h
  · exact h2 h

theorem splitOnSlash_meta (rest : GoString) :
    splitOnSlash (gs "/meta/" ++ rest) = [] :: gs "meta" :: splitOnSlash rest := by
  rw [show gs "/meta/" ++ rest = '/' :: (gs "meta" ++ '/' :: rest) from rfl]
  rw [splitOnSlash_cons_slash, splitOnSlash_append (gs "meta") rest (by decide)]

theorem legacy_none_of_meta (rest : GoString) :
    legacyProviderFromPath (gs "/meta/" ++ rest) = none := by
  unfold legacyProviderFromPath
  rw [if_neg, if_neg, if_neg, if_neg]
  all_goals
    simp only [List.isPrefixOf_iff_prefix]
    exact not_prefix_of_append _ _ _ (by decide) (by decide)

theorem gs_slash_append (x : GoString) : gs "/" ++ x = '/' :: x := rfl

theorem legacy_of_literal (t : GoString) (p : ProviderName) :
    legacyProviderFromPath ((gs "/" ++ provName p ++ gs "/") ++ t) = some p := by
  unfold legacyProviderFromPath
  cases p with
  | openai =>
    rw [show gs "/" ++ provName ProviderName.openai ++ gs "/"
      = gs "/openai/" from by decide]
    rw [if_pos (by rw [List.isPrefixOf_iff_prefix]; exact List.prefix_append _ _)]
  | anthropic =>
    rw [show gs "/" ++ provName ProviderName.anthropic ++ gs "/"
      = gs "/anthropic/" from by decide]
    rw [if_neg (by simpa [List.isPrefixOf_iff_prefix] using
      not_prefix_of_append (gs "/openai/") (gs "/anthropic/") t (by decide) (by decide))]
    rw [if_pos (by rw [List.isPrefixOf_iff_prefix]; exact List.prefix_append _ _)]
  | gemini =>
    rw [show gs "/" ++ provName ProviderName.gemini ++ gs "/"
      = gs "/gemini/" from by decide]
    rw [if_neg (by simpa [List.isPrefixOf_iff_prefix] using
      not_prefix_of_append (gs "/openai/") (gs "/gemini/") t (by decide) (by decide))]
    rw [if_neg (by simpa [List.isPrefixOf_iff_prefix] using
      not_prefix_of_append (gs "/anthropic/") (gs "/gemini/") t (by decide) (by decide))]
    rw [if_pos (by rw [List.isPrefixOf_iff_prefix]; exact List.prefix_append _ _)]
  | groq =>
    rw [show gs "/" ++ provName ProviderName.groq ++ gs "/"
      = gs "/groq/" from by decide]
    rw [if_neg (by simpa [List.isPrefixOf_iff_prefix] using
      not_prefix_of_append (gs "/openai/") (gs "/groq/") t (by decide) (by decide))]
    rw [if_neg (by simpa [List.isPrefixOf_iff_prefix] using
      not_prefix_of_append (gs "/anthropic/") (gs "/groq/") t (by decide) (by decide))]
    rw [if_neg (by simpa [List.isPrefixOf_iff_prefix] using
      not_prefix_of_append (gs "/gemini/") (gs "/groq/") t (by decide) (by decide))]
    rw [if_pos (by rw [List.isPrefixOf_iff_prefix]; exact List.prefix_append _ _)]

theorem legacy_eq_some (path : GoString) (p : ProviderName)
    (h : legacyProviderFromPath path = some p) :
    (gs "/" ++ provName p ++ gs "/").isPrefixOf path := by
  unfold legacyProviderFromPath at h
  split_ifs at h with h1 h2 h3 h4 <;>
    first
      | (obtain rfl : p = ProviderName.openai := (Option.some.inj h).symm
         rw [show gs "/" ++ provName ProviderName.openai ++ gs "/"
           = gs "/openai/" from by decide]
         exact h1)
      | (obtain rfl : p = ProviderName.anthropic := (Option.some.inj h).symm
         rw [show gs "/" ++ provName ProviderName.anthropic ++ gs "/"
           = gs "/anthropic/" from by decide]
         exact h2)
      | (obtain rfl : p = ProviderName.gemini := (Option.some.inj h).symm
         rw [show gs "/" ++ provName ProviderName.gemini ++ gs "/"
           = gs "/gemini/" from by decide]
         exact h3)
      | (obtain rfl : p = ProviderName.groq := (Option.some.inj h).symm
         rw [show gs "/" ++ provName ProviderName.groq ++ gs "/"
           = gs "/groq/" from by decide]
         exact h4)

/-- Full characterization of provider classification (the amended claim
C7): a provider `p` is resolved exactly for paths of the meta form
`/meta/<u>/<p>` followed by nothing or by a slash-started remainder, and
otherwise for paths beginning `/<p>/`. -/
theorem claim_C7_provider_classification (path : GoString) (p : ProviderName) :
    GetProviderFromRequest path = some p ↔
      (∃ u tail, '/' ∉ u
        ∧ path = gs "/meta/" ++ u ++ gs "/" ++ provName p ++ tail
        ∧ (tail = [] ∨ ∃ r, tail = '/' :: r))
      ∨ (¬ (gs "/meta/").isPrefixOf path
        ∧ (gs "/" ++ provName p ++ gs "/").isPrefixOf path) := by
  constructor
  · intro h
    unfold GetProviderFromRequest at h
    by_cases hm : (gs "/meta/").isPrefixOf path
    · rw [if_pos hm] at h
      rw [List.isPrefixOf_iff_prefix] at hm
      obtain ⟨rest, hrest⟩ := hm
      subst hrest
      rw [splitOnSlash_meta] at h
      by_cases hlen : 2 ≤ (splitOnSlash rest).length
      · rw [if_pos (by simp; omega)] at h
        rcases hsp : splitOnSlash rest with _ | ⟨u, _ | ⟨pn, more⟩⟩
        · exact absurd hsp (splitOnSlash_ne_nil rest)
        · rw [hsp] at hlen; simp at hlen
        · rw [hsp] at h
          have hget : (([] : GoString) :: gs "meta" :: u :: pn :: more).getD 3 []
              = pn := by simp [List.getD]
          rw [hget] at h
          cases hpn : provNameOf pn with
          | none =>
            rw [hpn, legacy_none_of_meta] at h
            exact absurd h (by simp)
          | some q =>
            rw [hpn] at h
            have hqp : q = p := by simpa using h
            have hpnp : pn = provName p :=
              provNameOf_eq_some pn p (by rw [hpn, hqp])
            left
            have hu : '/' ∉ u := by
              refine mem_splitOnSlash_no_slash rest u ?_
              rw [hsp]
              exact List.mem_cons_self _ _
            have hrest2 := (joinSlash_splitOnSlash rest).symm
            rw [hsp, joinSlash_cons_cons] at hrest2
            cases more with
            | nil =>
              refine ⟨u, [], hu, ?_, Or.inl rfl⟩
              rw [joinSlash_single] at hrest2
              rw [hrest2, hpnp]
              simp only [List.append_nil, List.append_assoc, gs_slash_append,
                List.cons_append]
            | cons m₁ ms =>
              refine ⟨u, '/' :: joinSlash (m₁ :: ms), hu, ?_,
                Or.inr ⟨joinSlash (m₁ :: ms), rfl⟩⟩
              rw [joinSlash_cons_cons] at hrest2
              rw [hrest2, hpnp]
              simp only [List.append_assoc, gs_slash_append, List.cons_append]
      · rw [if_neg (by simp; omega), legacy_none_of_meta] at h
        exact absurd h (by simp)
    · rw [if_neg hm] at h
      exact Or.inr ⟨hm, legacy_eq_some path p h⟩
  · rintro (⟨u, tail, hu, hpath, htail⟩ | ⟨hm, hpre⟩)
    · have hform : gs "/meta/" ++ u ++ gs "/" ++ provName p ++ tail
          = gs "/meta/" ++ (u ++ '/' :: (provName p ++ tail)) := by
        simp only [List.append_assoc, gs_slash_append, List.cons_append]
      rw [hpath, hform]
      have hmpre : (gs "/meta/").isPrefixOf
          (gs "/meta/" ++ (u ++ '/' :: (provName p ++ tail))) := by
        rw [List.isPrefixOf_iff_prefix]
        exact List.prefix_append _ _
      unfold GetProviderFromRequest
      rw [if_pos hmpre, splitOnSlash_meta, splitOnSlash_append u _ hu]
      rcases htail with rfl | ⟨r, rfl⟩
      · rw [List.append_nil, splitOnSlash_no_slash _ (provName_no_slash p)]
        simp [provNameOf_provName]
      · rw [splitOnSlash_append _ _ (provName_no_slash p)]
        have hlen : 4 ≤ (([] : GoString) :: gs "meta" :: u
            :: provName p :: splitOnSlash r).length := by
          simp
        rw [if_pos hlen]
        have hget : (([] : GoString) :: gs "meta" :: u :: provName p
            :: splitOnSlash r).getD 3 [] = provName p := by
          simp [List.getD]
        rw [hget, provNameOf_provName]
    · obtain ⟨t, ht⟩ := List.isPrefixOf_iff_prefix.mp hpre
      subst ht
      unfold GetProviderFromRequest
      rw [if_neg hm]
      exact legacy_of_literal t p

/-- Counterexample to claim C7 as stated: the path `/meta/u/openai` does
not begin with `/meta/<u>/<p>/` (it has no fourth slash) and its first
segment is `meta`, not a provider, so the claim classifies it as none —
yet the code resolves the openai provider for it. -/
theorem claim_C7_counterexample :
    GetProviderFromRequest (gs "/meta/u/openai") = some ProviderName.openai
    ∧ (¬ ∃ (u rest : GoString) (p : ProviderName),
        gs "/meta/u/openai"
          = gs "/meta/" ++ u ++ gs "/" ++ provName p ++ gs "/" ++ rest)
    ∧ (∀ p : ProviderName,
        ¬ (gs "/" ++ provName p ++ gs "/").isPrefixOf (gs "/meta/u/openai")) := by
  refine ⟨by decide, ?_, ?_⟩
  · rintro ⟨u, rest, p, heq⟩
    have hc := congrArg (List.count '/') heq
    have e1 : List.count '/' (gs "/meta/u/openai") = 3 := by decide
    have e2 : List.count '/' (gs "/meta/") = 2 := by decide
    have e3 : List.count '/' (gs "/") = 1 := by decide
    have e4 : List.count '/' (provName p) = 0 :=
      List.count_eq_zero.mpr (provName_no_slash p)
    simp only [List.count_append, e1, e2, e3, e4] at hc
    omega
  · intro p
    cases p <;> decide

/-- Concrete instances of the amended claim C7: a meta path resolves the
provider in its third segment, and a direct path resolves the provider of
its first segment. -/
theorem claim_C7_witness :
    GetProviderFromRequest (gs "/meta/alice/gemini/v1/models")
      = some ProviderName.gemini
    ∧ GetProviderFromRequest (gs "/openai/v1/chat/completions")
      = some ProviderName.openai := by
  constructor
  · exact (claim_C7_provider_classification _ _).mpr
      (Or.inl ⟨gs "alice", gs "/v1/models", by decide, by decide,
        Or.inr ⟨gs "v1/models", by decide⟩⟩)
  · exact (claim_C7_provider_classification _ _).mpr
      (Or.inr ⟨by decide, by decide⟩)

/-!
Response capture and token parsing (`responseCapture`,
`TokenParsingMiddleware`).  The inner handler's interaction with the
response writer is a sequence of operations (header writes and body
writes); the capture wrapper records what it forwards to the underlying
writer.  `forwarded` keeps the forwarded body chunks (in order), and
`statusForwarded` the forwarded status codes: `responseCapture` overrides
only `Write`, so `WriteHeader` calls pass through unchanged.
-/

inductive HandlerOp where
  | writeHeader (code : Nat)
  | write (b : List Byte)

/-- The body chunks an operation sequence writes, in order. -/
def writesOf (ops : List HandlerOp) : List (List Byte) :=
  ops.filterMap fun op =>
    match op with
    | .write b => some b
    | .writeHeader _ => none

/-- The status codes an operation sequence writes, in order. -/
def statusOf (ops : List HandlerOp) : List Nat :=
  ops.filterMap fun op =>
    match op with
    | .writeHeader c => some c
    | .write _ => none

/-- State of the `responseCapture` wrapper plus what it has forwarded to
the downstream writer. -/
structure ResponseCapture where
  forwarded : List (List Byte)
  statusForwarded : List Nat
  body : List Byte
  isStreaming : Bool
  provider : Option Provider
  lastMetadata : Option LLMResponseMetadata
  lastParsedPos : Nat

/-- The wrapper state created by `TokenParsingMiddleware` before serving
a request. -/
def initCapture (provider : Option Provider) (isStreaming : Bool) : ResponseCapture :=
  { forwarded := [], statusForwarded := [], body := [],
    isStreaming := isStreaming, provider := provider,
    lastMetadata := none, lastParsedPos := 0 }

/-- The incremental-parsing step of `responseCapture.Write`: for a
streaming response with a resolved provider, when the buffer has grown
past the last parsed position, re-parse the whole buffer and retain the
metadata only when the parse returns no error and a non-nil result; the
parsed position advances either way. -/
def writeParseStep (rc : ResponseCapture) : ResponseCapture :=
  if rc.isStreaming then
    match rc.provider with
    | some p =>
      if rc.lastParsedPos < rc.body.length then
        match p.parseResponseMetadata rc.body true with
        | (some m, none) =>
          { rc with lastMetadata := some m, lastParsedPos := rc.body.length }
        | _ => { rc with lastParsedPos := rc.body.length }
      else rc
    | none => rc
  else rc

/-- `responseCapture.Write`: append to the capture buffer, run the
incremental parsing step, and forward the chunk unchanged to the
underlying writer. -/
def ResponseCapture.write (rc : ResponseCapture) (b : List Byte) : ResponseCapture :=
  let rc1 := writeParseStep { rc with body := rc.body ++ b }
  { rc1 with forwarded := rc1.forwarded ++ [b] }

/-- One handler operation against the capture wrapper (`WriteHeader` is
not overridden by `responseCapture`, so it passes straight through). -/
def ResponseCapture.serve (rc : ResponseCapture) : HandlerOp → ResponseCapture
  | .writeHeader c => { rc with statusForwarded := rc.statusForwarded ++ [c] }
  | .write b => rc.write b

/-- The capture state after the inner handler ran. -/
def capFold (provider : Option Provider) (isStreaming : Bool)
    (ops : List HandlerOp) : ResponseCapture :=
  ops.foldl ResponseCapture.serve (initCapture provider isStreaming)

/-- The API-endpoint test of `TokenParsingMiddleware` (`strings.Contains`
checks on the request path). -/
def isAPIEndpoint (path : GoString) : Bool :=
  goContains (gs "/chat/completions") path
    || goContains (gs "/completions") path
    || goContains (gs "/messages") path
    || goContains (gs ":generateContent") path
    || goContains (gs ":streamGenerateContent") path

/-- The `X-LLM-*` headers `TokenParsingMiddleware` sets from parsed
metadata (`X-LLM-Request-ID` only for a non-empty request id). -/
def tokenUsageHeaders (m : LLMResponseMetadata) : List (GoString × GoString) :=
  [(gs "X-LLM-Input-Tokens", gs (toString m.inputTokens)),
   (gs "X-LLM-Output-Tokens", gs (toString m.outputTokens)),
   (gs "X-LLM-Total-Tokens", gs (toString m.totalTokens)),
   (gs "X-LLM-Thought-Tokens", gs (toString m.thoughtTokens)),
   (gs "X-LLM-Provider", m.provider),
   (gs "X-LLM-Model", m.model)]
  ++ (if m.requestID ≠ [] then [(gs "X-LLM-Request-ID", m.requestID)] else [])

/-- Result of `TokenParsingMiddleware` for one request: the final capture
state, the metering headers it added, and the metadata it passed to the
registered callbacks (`none` when the callbacks were not invoked). -/
structure MWResult where
  capture : ResponseCapture
  headersAdded : List (GoString × GoString)
  delivered : Option LLMResponseMetadata

/-- `TokenParsingMiddleware` for one request: serve the handler through
the capture wrapper; then, when a provider resolved and the path is an
API endpoint, use the retained streaming metadata if any, otherwise
parse the full buffer; on a parse error or nil metadata do nothing
further, otherwise add the metering headers and invoke the callbacks. -/
def runTokenParsing (provider : Option Provider) (isStreaming : Bool)
    (path : GoString) (ops : List HandlerOp) : MWResult :=
  let rc := capFold provider isStreaming ops
  match provider with
  | some p =>
    if isAPIEndpoint path then
      match
        (if isStreaming && rc.lastMetadata.isSome then (rc.lastMetadata, none)
         else p.parseResponseMetadata rc.body isStreaming :
          Option LLMResponseMetadata × Option GoString) with
      | (_, some _) => ⟨rc, [], none⟩
      | (some m, none) => ⟨rc, tokenUsageHeaders m, some m⟩
      | (none, none) => ⟨rc, [], none⟩
    else ⟨rc, [], none⟩
  | none => ⟨rc, [], none⟩

theorem writeParseStep_preserved (rc : ResponseCapture) :
    (writeParseStep rc).forwarded = rc.forwarded
    ∧ (writeParseStep rc).statusForwarded = rc.statusForwarded
    ∧ (writeParseStep rc).body = rc.body
    ∧ (writeParseStep rc).isStreaming = rc.isStreaming
    ∧ (writeParseStep rc).provider = rc.provider := by
  unfold writeParseStep
  repeat' split
  all_goals simp

theorem write_components (rc : ResponseCapture) (b : List Byte) :
    (rc.write b).forwarded = rc.forwarded ++ [b]
    ∧ (rc.write b).statusForwarded = rc.statusForwarded
    ∧ (rc.write b).body = rc.body ++ b
    ∧ (rc.write b).isStreaming = rc.isStreaming
    ∧ (rc.write b).provider = rc.provider := by
  have h := writeParseStep_preserved { rc with body := rc.body ++ b }
  unfold ResponseCapture.write
  exact ⟨by simp [h.1], by simp [h.2.1], by simp [h.2.2.1],
    by simp [h.2.2.2.1], by simp [h.2.2.2.2]⟩

theorem serve_components (rc : ResponseCapture) (op : HandlerOp) :
    (rc.serve op).isStreaming = rc.isStreaming
    ∧ (rc.serve op).provider = rc.provider := by
  cases op with
  | writeHeader c => exact ⟨rfl, rfl⟩
  | write b => exact ⟨(write_components rc b).2.2.2.1, (write_components rc b).2.2.2.2⟩

theorem foldServe_components (ops : List HandlerOp) : ∀ rc : ResponseCapture,
    (ops.foldl ResponseCapture.serve rc).forwarded = rc.forwarded ++ writesOf ops
    ∧ (ops.foldl ResponseCapture.serve rc).statusForwarded
        = rc.statusForwarded ++ statusOf ops
    ∧ (ops.foldl ResponseCapture.serve rc).body
        = rc.body ++ (writesOf ops).flatten
    ∧ (ops.foldl ResponseCapture.serve rc).isStreaming = rc.isStreaming
    ∧ (ops.foldl ResponseCapture.serve rc).provider = rc.provider := by
  induction ops with
  | nil => intro rc; simp [writesOf, statusOf]
  | cons op rest ih =>
    intro rc
    rw [List.foldl_cons]
    cases op with
    | writeHeader c =>
      obtain ⟨f1, f2, f3, f4, f5⟩ := ih (rc.serve (HandlerOp.writeHeader c))
      refine ⟨?_, ?_, ?_, ?_, ?_⟩
      · rw [f1]; simp [ResponseCapture.serve, writesOf]
      · rw [f2]; simp [ResponseCapture.serve, statusOf]
      · rw [f3]; simp [ResponseCapture.serve, writesOf]
      · rw [f4]; rfl
      · rw [f5]; rfl
    | write b =>
      obtain ⟨f1, f2, f3, f4, f5⟩ := ih (rc.serve (HandlerOp.write b))
      obtain ⟨w1, w2, w3, w4, w5⟩ := write_components rc b
      have hserve : rc.serve (HandlerOp.write b) = rc.write b := rfl
      refine ⟨?_, ?_, ?_, ?_, ?_⟩
      · rw [f1, hserve, w1]; simp [writesOf]
      · rw [f2, hserve, w2]; simp [statusOf]
      · rw [f3, hserve, w3]; simp [writesOf]
      · rw [f4, hserve, w4]
      · rw [f5, hserve, w5]

theorem capFold_components (provider : Option Provider) (isStreaming : Bool)
    (ops : List HandlerOp) :
    (capFold provider isStreaming ops).forwarded = writesOf ops
    ∧ (capFold provider isStreaming ops).statusForwarded = statusOf ops
    ∧ (capFold provider isStreaming ops).body = (writesOf ops).flatten
    ∧ (capFold provider isStreaming ops).isStreaming = isStreaming
    ∧ (capFold provider isStreaming ops).provider = provider := by
  have h := foldServe_components ops (initCapture provider isStreaming)
  simpa [capFold, initCapture] using h

theorem runTokenParsing_capture (provider : Option Provider) (isStreaming : Bool)
    (path : GoString) (ops : List HandlerOp) :
    (runTokenParsing provider isStreaming path ops).capture
      = capFold provider isStreaming ops := by
  unfold runTokenParsing
  rcases provider with _ | p
  · rfl
  · dsimp only
    split
    · split <;> rfl
    · rfl

theorem write_lastParsedPos (rc : ResponseCapture) (p : Provider) (b : List Byte)
    (hs : rc.isStreaming = true) (hp : rc.provider = some p)
    (hinv : rc.lastParsedPos ≤ rc.body.length) :
    (rc.write b).lastParsedPos = (rc.write b).body.length := by
  obtain ⟨-, -, hb, -, -⟩ := write_components rc b
  rw [hb]
  unfold ResponseCapture.write writeParseStep
  simp only [hs, hp, if_true]
  by_cases hlt : rc.lastParsedPos < (rc.body ++ b).length
  · rw [if_pos hlt]
    rcases hpr : p.parseResponseMetadata (rc.body ++ b) true with ⟨m, e⟩
    cases m <;> cases e <;> simp
  · rw [if_neg hlt]
    simp only [List.length_append] at hlt ⊢
    omega

theorem serve_lastParsedPos (rc : ResponseCapture) (p : Provider) (op : HandlerOp)
    (hs : rc.isStreaming = true) (hp : rc.provider = some p)
    (hinv : rc.lastParsedPos ≤ rc.body.length) :
    (rc.serve op).lastParsedPos ≤ (rc.serve op).body.length := by
  cases op with
  | writeHeader c => exact hinv
  | write b => exact Nat.le_of_eq (write_lastParsedPos rc p b hs hp hinv)

theorem capFold_lastParsedPos (p : Provider) (ops : List HandlerOp) :
    (capFold (some p) true ops).lastParsedPos
      ≤ (capFold (some p) true ops).body.length := by
  unfold capFold
  have hgen : ∀ (ops : List HandlerOp) (rc : ResponseCapture),
      rc.isStreaming = true → rc.provider = some p →
      rc.lastParsedPos ≤ rc.body.length →
      (ops.foldl ResponseCapture.serve rc).lastParsedPos
        ≤ (ops.foldl ResponseCapture.serve rc).body.length := by
    intro ops
    induction ops with
    | nil => intro rc _ _ hinv; exact hinv
    | cons op rest ih =>
      intro rc hs hp hinv
      rw [List.foldl_cons]
      exact ih (rc.serve op) ((serve_components rc op).1.trans hs)
        ((serve_components rc op).2.trans hp)
        (serve_lastParsedPos rc p op hs hp hinv)
  exact hgen ops (initCapture (some p) true) rfl rfl (by simp [initCapture])

theorem write_lastMetadata (rc : ResponseCapture) (p : Provider) (b : List Byte)
    (hs : rc.isStreaming = true) (hp : rc.provider = some p)
    (hinv : rc.lastParsedPos ≤ rc.body.length) (hb : b ≠ []) :
    (rc.write b).lastMetadata =
      match p.parseResponseMetadata (rc.body ++ b) true with
      | (some m, none) => some m
      | _ => rc.lastMetadata := by
  have hlt : rc.lastParsedPos < (rc.body ++ b).length := by
    have : 0 < b.length := List.length_pos.mpr hb
    simp only [List.length_append]
    omega
  unfold ResponseCapture.write writeParseStep
  simp only [hs, hp, if_true]
  rw [if_pos hlt]
  rcases hpr : p.parseResponseMetadata (rc.body ++ b) true with ⟨m, e⟩
  cases m <;> cases e <;> simp

/-- Claim C2: the capture wrapper forwards exactly the chunks the inner
handler wrote, in order, so the byte sequence the downstream writer
receives is the concatenation of the bytes the handler wrote. -/
theorem claim_C2_byte_transparency (provider : Option Provider) (isStreaming : Bool)
    (path : GoString) (ops : List HandlerOp) :
    (runTokenParsing provider isStreaming path ops).capture.forwarded = writesOf ops
    ∧ ((runTokenParsing provider isStreaming path ops).capture.forwarded).flatten
        = (writesOf ops).flatten
    ∧ (runTokenParsing provider isStreaming path ops).capture.body
        = (writesOf ops).flatten := by
  rw [runTokenParsing_capture]
  obtain ⟨h1, -, h3, -, -⟩ := capFold_components provider isStreaming ops
  exact ⟨h1, by rw [h1], h3⟩

/-- Amended claim C3: for a streaming request with a resolved provider,
each write that adds new bytes re-parses the cumulative buffer and
retains the metadata exactly when the parse succeeds with a non-nil
result; at end of response, on an API-endpoint path the middleware
delivers the retained streaming metadata when there is one and otherwise
a single parse of the full buffer (a unary parse for non-streams), while
on a non-endpoint path it delivers nothing. -/
theorem claim_C3_streaming_incremental (p : Provider) (path : GoString)
    (ops : List HandlerOp) (b : List Byte) (hb : b ≠ []) :
    ((capFold (some p) true ops).write b).lastMetadata
      = (match p.parseResponseMetadata ((capFold (some p) true ops).body ++ b) true with
         | (some m, none) => some m
         | _ => (capFold (some p) true ops).lastMetadata)
    ∧ (isAPIEndpoint path = true →
        (runTokenParsing (some p) true path ops).delivered
          = (if (capFold (some p) true ops).lastMetadata.isSome
             then (capFold (some p) true ops).lastMetadata
             else match p.parseResponseMetadata (capFold (some p) true ops).body true with
               | (m, none) => m
               | (_, some _) => none))
    ∧ (isAPIEndpoint path = true →
        (runTokenParsing (some p) false path ops).delivered
          = (match p.parseResponseMetadata ((writesOf ops).flatten) false with
             | (m, none) => m
             | (_, some _) => none))
    ∧ (isAPIEndpoint path = false →
        (runTokenParsing (some p) true path ops).delivered = none
        ∧ (runTokenParsing (some p) false path ops).delivered = none) := by
  refine ⟨?_, ?_, ?_, ?_⟩
  · exact write_lastMetadata _ p b (capFold_components _ _ _).2.2.2.1
      (capFold_components _ _ _).2.2.2.2 (capFold_lastParsedPos p ops) hb
  · intro hapi
    unfold runTokenParsing
    simp only [hapi, if_true, Bool.true_and]
    cases hlm : (capFold (some p) true ops).lastMetadata with
    | some m => simp [hlm]
    | none =>
      simp only [hlm, Option.isSome_none, Bool.false_eq_true, if_false]
      rcases hpr : p.parseResponseMetadata (capFold (some p) true ops).body true
        with ⟨m, e⟩
      cases m <;> cases e <;> simp
  · intro hapi
    unfold runTokenParsing
    simp only [hapi, if_true, Bool.false_and, Bool.false_eq_true, if_false]
    rcases hpr : p.parseResponseMetadata (capFold (some p) false ops).body false
      with ⟨m, e⟩
    rw [(capFold_components (some p) false ops).2.2.1] at hpr
    rw [hpr]
    cases m <;> cases e <;> simp
  · intro hfalse
    constructor
    · unfold runTokenParsing
      simp [hfalse]
    · unfold runTokenParsing
      simp [hfalse]

/-- Metadata of the OpenAI unary scenario (input 7, output 5, total 12,
model gpt-4o-mini, request id chatcmpl-1). -/
def openAIScenarioMeta : LLMResponseMetadata :=
  { provider := gs "openai", model := gs "gpt-4o-mini",
    requestID := gs "chatcmpl-1", inputTokens := 7, outputTokens := 5,
    thoughtTokens := 0, totalTokens := 12, finishReason := gs "stop",
    isStreaming := false }

/-- A mock streaming provider whose parser succeeds once the buffer holds
at least three bytes (usage arrives near the end of the stream). -/
def mockStreamProvider : Provider :=
  { name := gs "openai",
    parseResponseMetadata := fun body _ =>
      if 3 ≤ body.length
      then (some { openAIScenarioMeta with isStreaming := true }, none)
      else (none, some (gs "partial event")),
    userIDFromRequest := fun _ => [] }

/-- A mock unary provider whose parser always succeeds with the OpenAI
scenario metadata. -/
def mockUnaryProvider : Provider :=
  { name := gs "openai",
    parseResponseMetadata := fun _ _ => (some openAIScenarioMeta, none),
    userIDFromRequest := fun _ => [] }

/-- A mock provider whose parser always fails, as the repository's
`FailingMockProvider` test double does. -/
def mockFailingProvider : Provider :=
  { name := gs "openai",
    parseResponseMetadata := fun _ _ => (none, some (gs "simulated parsing error")),
    userIDFromRequest := fun _ => [] }

/-- Concrete instances of claim C3: with a parser that needs three
bytes, the second streaming write retains the metadata; on an
API-endpoint path the middleware delivers it at end of response, and on
a non-endpoint path it delivers nothing. -/
theorem claim_C3_witness :
    ((capFold (some mockStreamProvider) true [HandlerOp.write [10, 11]]).write
        [12, 13]).lastMetadata
      = some { openAIScenarioMeta with isStreaming := true }
    ∧ (runTokenParsing (some mockStreamProvider) true
        (gs "/openai/v1/chat/completions")
        [HandlerOp.write [10, 11], HandlerOp.write [12, 13]]).delivered
      = some { openAIScenarioMeta with isStreaming := true }
    ∧ (runTokenParsing (some mockStreamProvider) true (gs "/groq/v1/models")
        [HandlerOp.write [10, 11], HandlerOp.write [12, 13]]).delivered
      = none := by
  refine ⟨?_, ?_, ?_⟩
  · exact (claim_C3_streaming_incremental mockStreamProvider
      (gs "/openai/v1/chat/completions")
      [HandlerOp.write [10, 11]] [12, 13] (by decide)).1.trans (by decide)
  · exact ((claim_C3_streaming_incremental mockStreamProvider
      (gs "/openai/v1/chat/completions")
      [HandlerOp.write [10, 11], HandlerOp.write [12, 13]] [99] (by decide)).2.1
      (by decide)).trans (by decide)
  · exact ((claim_C3_streaming_incremental mockStreamProvider
      (gs "/groq/v1/models")
      [HandlerOp.write [10, 11], HandlerOp.write [12, 13]] [99] (by decide)).2.2.2
      (by decide)).1

/-- Counterexample to claim C3 as stated: `/groq/v1/models` is not an
API-endpoint path, so for a streaming request with a resolved provider
on it the capture retains successfully parsed streaming metadata after
the writes, yet the middleware performs no end-of-response delivery —
contradicting the claim's unconditional delivery clause. -/
theorem claim_C3_counterexample :
    isAPIEndpoint (gs "/groq/v1/models") = false
    ∧ (capFold (some mockStreamProvider) true
        [HandlerOp.write [10, 11], HandlerOp.write [12, 13]]).lastMetadata
      = some { openAIScenarioMeta with isStreaming := true }
    ∧ (runTokenParsing (some mockStreamProvider) true (gs "/groq/v1/models")
        [HandlerOp.write [10, 11], HandlerOp.write [12, 13]]).delivered = none := by
  exact ⟨by decide, by decide, by decide⟩

/-- Claim C6: when response-metadata parsing fails, the failure is opaque
to the client — the forwarded body chunks and status codes are exactly
the handler's, no metering headers are added, and no callback metadata is
delivered. -/
theorem claim_C6_parse_failure_opaque (p : Provider) (isStreaming : Bool)
    (path : GoString) (ops : List HandlerOp)
    (hapi : isAPIEndpoint path = true)
    (hno : ¬(isStreaming = true
      ∧ (capFold (some p) isStreaming ops).lastMetadata.isSome = true))
    (herr : (p.parseResponseMetadata (capFold (some p) isStreaming ops).body
      isStreaming).2.isSome = true) :
    (runTokenParsing (some p) isStreaming path ops).delivered = none
    ∧ (runTokenParsing (some p) isStreaming path ops).headersAdded = []
    ∧ (runTokenParsing (some p) isStreaming path ops).capture.forwarded
        = writesOf ops
    ∧ (runTokenParsing (some p) isStreaming path ops).capture.statusForwarded
        = statusOf ops := by
  have hcap := runTokenParsing_capture (some p) isStreaming path ops
  have hcond : (isStreaming && (capFold (some p) isStreaming ops).lastMetadata.isSome)
      = false := by
    by_cases hst : isStreaming = true
    · subst hst
      by_cases hlm : (capFold (some p) true ops).lastMetadata.isSome = true
      · exact absurd ⟨rfl, hlm⟩ hno
      · simp only [Bool.not_eq_true] at hlm
        simp [hlm]
    · simp only [Bool.not_eq_true] at hst
      simp [hst]
  have hmain : (runTokenParsing (some p) isStreaming path ops).delivered = none
      ∧ (runTokenParsing (some p) isStreaming path ops).headersAdded = [] := by
    unfold runTokenParsing
    simp only [hapi, if_true, hcond, Bool.false_eq_true, if_false]
    rcases hpr : p.parseResponseMetadata (capFold (some p) isStreaming ops).body
      isStreaming with ⟨m, e⟩
    rw [hpr] at herr
    cases e with
    | none => simp at herr
    | some err => cases m <;> simp
  exact ⟨hmain.1, hmain.2, by rw [hcap]; exact (capFold_components _ _ _).1,
    by rw [hcap]; exact (capFold_components _ _ _).2.1⟩

/-- Concrete instance of claim C6: a failing parser leaves the handler's
status 200 and body untouched and adds no headers, as in the repository's
parsing-failure tests. -/
theorem claim_C6_witness :
    (runTokenParsing (some mockFailingProvider) false
        (gs "/openai/v1/chat/completions")
        [HandlerOp.writeHeader 200, HandlerOp.write [1, 2, 3]]).delivered = none
    ∧ (runTokenParsing (some mockFailingProvider) false
        (gs "/openai/v1/chat/completions")
        [HandlerOp.writeHeader 200, HandlerOp.write [1, 2, 3]]).headersAdded = []
    ∧ (runTokenParsing (some mockFailingProvider) false
        (gs "/openai/v1/chat/completions")
        [HandlerOp.writeHeader 200, HandlerOp.write [1, 2, 3]]).capture.forwarded
      = [[1, 2, 3]]
    ∧ (runTokenParsing (some mockFailingProvider) false
        (gs "/openai/v1/chat/completions")
        [HandlerOp.writeHeader 200, HandlerOp.write [1, 2, 3]]).capture.statusForwarded
      = [200] := by
  obtain ⟨h1, h2, h3, h4⟩ := claim_C6_parse_failure_opaque mockFailingProvider false
    (gs "/openai/v1/chat/completions")
    [HandlerOp.writeHeader 200, HandlerOp.write [1, 2, 3]]
    (by decide) (by decide) (by decide)
  exact ⟨h1, h2, h3.trans (by decide), h4.trans (by decide)⟩

/-- Claim C5: on a tracked request whose metadata parses successfully,
the middleware sets the six `X-LLM-*` metering headers from the parsed
metadata, plus `X-LLM-Request-ID` exactly when the parsed request id is
non-empty. -/
theorem claim_C5_metering_headers (p : Provider) (isStreaming : Bool)
    (path : GoString) (ops : List HandlerOp) (m : LLMResponseMetadata)
    (hapi : isAPIEndpoint path = true)
    (hdel : (runTokenParsing (some p) isStreaming path ops).delivered = some m) :
    (runTokenParsing (some p) isStreaming path ops).headersAdded
      = [(gs "X-LLM-Input-Tokens", gs (toString m.inputTokens)),
         (gs "X-LLM-Output-Tokens", gs (toString m.outputTokens)),
         (gs "X-LLM-Total-Tokens", gs (toString m.totalTokens)),
         (gs "X-LLM-Thought-Tokens", gs (toString m.thoughtTokens)),
         (gs "X-LLM-Provider", m.provider),
         (gs "X-LLM-Model", m.model)]
        ++ (if m.requestID ≠ []
            then [(gs "X-LLM-Request-ID", m.requestID)] else []) := by
  unfold runTokenParsing at hdel ⊢
  simp only [hapi, if_true] at hdel ⊢
  by_cases hcond : (isStreaming
      && (capFold (some p) isStreaming ops).lastMetadata.isSome) = true
  · rw [if_pos hcond] at hdel ⊢
    rcases hlm : (capFold (some p) isStreaming ops).lastMetadata with _ | m'
    · rw [hlm] at hcond
      simp at hcond
    · rw [hlm] at hdel
      have hm : m' = m := by simpa using hdel
      subst hm
      simp [tokenUsageHeaders]
  · rw [if_neg hcond] at hdel ⊢
    rcases hpr : p.parseResponseMetadata (capFold (some p) isStreaming ops).body
        isStreaming with ⟨mo, e⟩
    rw [hpr] at hdel
    cases mo with
    | none => cases e <;> simp at hdel
    | some m' =>
      cases e with
      | some err => simp at hdel
      | none =>
        have hm : m' = m := by simpa using hdel
        subst hm
        simp [tokenUsageHeaders]

/-- Concrete instance of claim C5, the OpenAI unary scenario: input 7,
output 5, total 12, provider openai, model gpt-4o-mini, request id
chatcmpl-1 become the response metering headers. -/
theorem claim_C5_witness :
    (runTokenParsing (some mockUnaryProvider) false
        (gs "/openai/v1/chat/completions")
        [HandlerOp.writeHeader 200, HandlerOp.write [1, 2, 3]]).headersAdded
      = [(gs "X-LLM-Input-Tokens", gs "7"),
         (gs "X-LLM-Output-Tokens", gs "5"),
         (gs "X-LLM-Total-Tokens", gs "12"),
         (gs "X-LLM-Thought-Tokens", gs "0"),
         (gs "X-LLM-Provider", gs "openai"),
         (gs "X-LLM-Model", gs "gpt-4o-mini"),
         (gs "X-LLM-Request-ID", gs "chatcmpl-1")] := by
  exact (claim_C5_metering_headers mockUnaryProvider false
    (gs "/openai/v1/chat/completions")
    [HandlerOp.writeHeader 200, HandlerOp.write [1, 2, 3]]
    openAIScenarioMeta (by decide) (by decide)).trans (by decide)

/-!
Cost tracking (`costTrackingCallback` in `cmd/llm-proxy/main.go`).  The
cost tracker's `TrackRequest` lives outside the core; the sink's receipt
of a usage record is modelled as the list of records handed to it for
one request.
-/

/-- A usage record as handed to the cost-tracking sink
(`TrackRequest(metadata, userID, ipAddress, path)`). -/
structure UsageDelivery where
  metadata : LLMResponseMetadata
  userID : GoString
  ipAddress : GoString
  requestPath : GoString
deriving Repr, DecidableEq

/-- `costTrackingCallback` from `cmd/llm-proxy/main.go`: hand the record
to the cost tracker only when the parsed total token count is positive.
(The callback re-resolves the request's provider for user-ID extraction;
the resolved provider is passed in here.) -/
def costTrackingCallback (req : Request) (provider : Option Provider)
    (metadata : LLMResponseMetadata) : List UsageDelivery :=
  if 0 < metadata.totalTokens then
    [{ metadata := metadata,
       userID := ExtractUserIDFromRequest req provider,
       ipAddress := ExtractIPAddressFromRequest req,
       requestPath := req.path }]
  else []

/-- The records the cost-tracking sink receives for one request: the
middleware invokes the registered cost-tracking callback once, with the
delivered metadata, and the callback filters on positive total tokens. -/
def sinkRecords (req : Request) (provider : Option Provider)
    (isStreaming : Bool) (ops : List HandlerOp) : List UsageDelivery :=
  match (runTokenParsing provider isStreaming req.path ops).delivered with
  | some m => costTrackingCallback req provider m
  | none => []

/-- Claim C4: the cost-tracking sink receives at most one usage record
per request, any record it receives has positive total tokens, and a
request whose metadata is not delivered (parse failure, or a stream
ending before usage is seen) produces no record. -/
theorem claim_C4_at_most_one_record (req : Request) (provider : Option Provider)
    (isStreaming : Bool) (ops : List HandlerOp) :
    (sinkRecords req provider isStreaming ops).length ≤ 1
    ∧ (∀ rec ∈ sinkRecords req provider isStreaming ops,
        0 < rec.metadata.totalTokens)
    ∧ ((runTokenParsing provider isStreaming req.path ops).delivered = none →
        sinkRecords req provider isStreaming ops = []) := by
  refine ⟨?_, ?_, ?_⟩
  · cases hdel : (runTokenParsing provider isStreaming req.path ops).delivered with
    | none => simp [sinkRecords, hdel]
    | some m =>
      by_cases hpos : 0 < m.totalTokens <;>
        simp [sinkRecords, costTrackingCallback, hdel, hpos]
  · intro rec hrec
    cases hdel : (runTokenParsing provider isStreaming req.path ops).delivered with
    | none => simp [sinkRecords, hdel] at hrec
    | some m =>
      by_cases hpos : 0 < m.totalTokens
      · simp [sinkRecords, costTrackingCallback, hdel, hpos] at hrec
        subst hrec
        simpa using hpos
      · simp [sinkRecords, costTrackingCallback, hdel, hpos] at hrec
  · intro h
    simp [sinkRecords, h]

/-- Concrete instances of claim C4: the OpenAI unary scenario yields one
record with total tokens 12, and a failing parse yields none. -/
theorem claim_C4_witness :
    (sinkRecords
        ⟨gs "/openai/v1/chat/completions", none, gs "user123", [], [], [], [],
          gs "10.0.0.9:1234"⟩
        (some mockUnaryProvider) false
        [HandlerOp.writeHeader 200, HandlerOp.write [1, 2, 3]]).length ≤ 1
    ∧ sinkRecords
        ⟨gs "/openai/v1/chat/completions", none, gs "user123", [], [], [], [],
          gs "10.0.0.9:1234"⟩
        (some mockFailingProvider) false
        [HandlerOp.writeHeader 200, HandlerOp.write [1, 2, 3]] = [] := by
  constructor
  · exact (claim_C4_at_most_one_record _ (some mockUnaryProvider) false _).1
  · exact (claim_C4_at_most_one_record
      ⟨gs "/openai/v1/chat/completions", none, gs "user123", [], [], [], [],
        gs "10.0.0.9:1234"⟩
      (some mockFailingProvider) false
      [HandlerOp.writeHeader 200, HandlerOp.write [1, 2, 3]]).2.2 (by decide)

/-!
Groq request direction (`NewGroqProxy` in the providers package).  The
shared `CreateGenericDirector` is not among the sources; modelled from
the spec: the generic director "sets scheme/host/path-strip", stripping
the `/<provider>` path prefix before the adapter applies its own tweak.
Only the path rewriting is modelled here.
-/

/-- Modelled from the spec: `CreateGenericDirector`, restricted to its
path rewriting — strip the `/<provider>` path prefix. -/
def genericDirectorPath (providerName : GoString) (path : GoString) : GoString :=
  if (('/' :: providerName) : GoString).isPrefixOf path then
    path.drop (providerName.length + 1)
  else path

/-- The Groq director wrapper from `NewGroqProxy`: after the generic
director ran, prepend `/openai` unless the path already starts with
`/openai/`. -/
def groqDirectorPath (path : GoString) : GoString :=
  if ¬ (gs "/openai/").isPrefixOf (genericDirectorPath (gs "groq") path) then
    gs "/openai" ++ genericDirectorPath (gs "groq") path
  else genericDirectorPath (gs "groq") path

/-- Claim C8: a client request to `/groq/v1/...` is directed upstream to
`/openai/v1/...`, and the `/openai` prefix is added only when the
stripped path does not already carry it. -/
theorem claim_C8_groq_director (rest : GoString) :
    groqDirectorPath (gs "/groq/v1/" ++ rest) = gs "/openai/v1/" ++ rest
    ∧ ∀ path : GoString,
        (gs "/openai/").isPrefixOf (genericDirectorPath (gs "groq") path) = true →
        groqDirectorPath path = genericDirectorPath (gs "groq") path := by
  constructor
  · have hpre : (('/' :: gs "groq") : GoString).isPrefixOf
        (gs "/groq/v1/" ++ rest) = true := by
      rw [List.isPrefixOf_iff_prefix]
      exact ⟨gs "/v1/" ++ rest, rfl⟩
    have hgen : genericDirectorPath (gs "groq") (gs "/groq/v1/" ++ rest)
        = gs "/v1/" ++ rest := by
      unfold genericDirectorPath
      rw [if_pos hpre]
      rfl
    have hnp : (gs "/openai/").isPrefixOf (gs "/v1/" ++ rest) = false := rfl
    unfold groqDirectorPath
    rw [hgen, if_pos (by simp [hnp])]
    rfl
  · intro path hpre
    unfold groqDirectorPath
    rw [if_neg (not_not_intro hpre)]

/-- Concrete instances of claim C8: `/groq/v1/chat/completions` is
directed to `/openai/v1/chat/completions`, and a stripped path already
under `/openai/` is left alone. -/
theorem claim_C8_witness :
    groqDirectorPath (gs "/groq/v1/chat/completions")
      = gs "/openai/v1/chat/completions"
    ∧ groqDirectorPath (gs "/groq/openai/v1/models") = gs "/openai/v1/models" := by
  constructor
  · have h := (claim_C8_groq_director (gs "chat/completions")).1
    rw [show gs "/groq/v1/chat/completions"
        = gs "/groq/v1/" ++ gs "chat/completions" from by decide,
      show gs "/openai/v1/chat/completions"
        = gs "/openai/v1/" ++ gs "chat/completions" from by decide]
    exact h
  · exact ((claim_C8_groq_director []).2 (gs "/groq/openai/v1/models")
      (by decide)).trans (by decide)

/-!
Groq API-key validation (`GroqProxy.ValidateAPIKey`).  The key store is
external (`providers.APIKeyStore`); its `ValidateAndGetActualKey` returns
the actual upstream key, the provider the key is bound to, and an error,
embedded as a function of the presented key.
-/

structure APIKeyStore where
  validateAndGetActualKey : GoString → GoString × GoString × Option GoString

/-- `GroqProxy.ValidateAPIKey`: pass requests without a `Bearer`
authorization through; otherwise resolve the presented key in the store,
fail on a store error or on a key bound to a different non-empty
provider, and rewrite the header when the actual key differs from the
presented one.  Returns the (possibly rewritten) request or the error. -/
def GroqValidateAPIKey (req : Request) (keyStore : APIKeyStore) :
    Except GoString Request :=
  if req.headerAuthorization = [] then .ok req
  else if ¬ (gs "Bearer ").isPrefixOf req.headerAuthorization then .ok req
  else
    match keyStore.validateAndGetActualKey
        (req.headerAuthorization.drop (gs "Bearer ").length) with
    | (_, _, some e) => .error (gs "API key validation failed: " ++ e)
    | (actualKey, provider, none) =>
      if provider ≠ [] ∧ provider ≠ gs "groq" then
        .error (gs "API key is for provider " ++ provider ++ gs ", not groq")
      else if actualKey ≠ req.headerAuthorization.drop (gs "Bearer ").length then
        .ok { req with headerAuthorization := gs "Bearer " ++ actualKey }
      else .ok req

/-- Claim C9: requests with no `Authorization` header or a non-Bearer
scheme pass Groq key validation unchanged; when the store resolves the
presented key without error, validation fails exactly when the resolved
provider is non-empty and differs from groq, and on success the header
carries the actual key (rewritten only when it differs). -/
theorem claim_C9_groq_key_validation (req : Request) (keyStore : APIKeyStore) :
    (req.headerAuthorization = [] → GroqValidateAPIKey req keyStore = .ok req)
    ∧ ((gs "Bearer ").isPrefixOf req.headerAuthorization = false →
        GroqValidateAPIKey req keyStore = .ok req)
    ∧ (∀ ak prov : GoString,
        (gs "Bearer ").isPrefixOf req.headerAuthorization = true →
        keyStore.validateAndGetActualKey
            (req.headerAuthorization.drop (gs "Bearer ").length)
          = (ak, prov, none) →
        ((∃ e, GroqValidateAPIKey req keyStore = Except.error e)
            ↔ (prov ≠ [] ∧ prov ≠ gs "groq"))
        ∧ ((prov = [] ∨ prov = gs "groq") →
            GroqValidateAPIKey req keyStore
              = Except.ok
                  (if ak ≠ req.headerAuthorization.drop (gs "Bearer ").length
                   then { req with headerAuthorization := gs "Bearer " ++ ak }
                   else req))) := by
  refine ⟨?_, ?_, ?_⟩
  · intro h
    unfold GroqValidateAPIKey
    rw [if_pos h]
  · intro h
    unfold GroqValidateAPIKey
    by_cases ha : req.headerAuthorization = []
    · rw [if_pos ha]
    · rw [if_neg ha, if_pos (by simp [h])]
  · intro ak prov hbear hstore
    have ha : req.headerAuthorization ≠ [] := bearer_isPrefixOf_ne_nil _ hbear
    have hval : GroqValidateAPIKey req keyStore
        = (if prov ≠ [] ∧ prov ≠ gs "groq" then
            Except.error (gs "API key is for provider " ++ prov ++ gs ", not groq")
          else if ak ≠ req.headerAuthorization.drop (gs "Bearer ").length then
            Except.ok { req with headerAuthorization := gs "Bearer " ++ ak }
          else Except.ok req) := by
      unfold GroqValidateAPIKey
      rw [if_neg ha, if_neg (not_not_intro hbear), hstore]
    constructor
    · constructor
      · rintro ⟨e, he⟩
        by_cases hmis : prov ≠ [] ∧ prov ≠ gs "groq"
        · exact hmis
        · rw [hval, if_neg hmis] at he
          by_cases hak : ak ≠ req.headerAuthorization.drop (gs "Bearer ").length
          · rw [if_pos hak] at he
            exact absurd he (by simp)
          · rw [if_neg hak] at he
            exact absurd he (by simp)
      · intro hmis
        rw [hval, if_pos hmis]
        exact ⟨_, rfl⟩
    · intro hok
      have hmis : ¬(prov ≠ [] ∧ prov ≠ gs "groq") := by
        rcases hok with h | h <;> simp [h]
      rw [hval, if_neg hmis]
      by_cases hak : ak ≠ req.headerAuthorization.drop (gs "Bearer ").length
      · rw [if_pos hak, if_pos hak]
      · rw [if_neg hak, if_neg hak]

/-- Concrete instances of claim C9: an opaque `iw:` key bound to groq is
translated in the header; a key bound to openai is rejected; a request
without authorization passes unchanged. -/
theorem claim_C9_witness :
    GroqValidateAPIKey
        ⟨gs "/groq/v1/chat/completions", none, [], gs "Bearer iw:abcd1234",
          [], [], [], gs "10.0.0.9:1234"⟩
        ⟨fun k => if k = gs "iw:abcd1234" then (gs "sk-real", gs "groq", none)
          else (k, gs "openai", none)⟩
      = Except.ok
          ⟨gs "/groq/v1/chat/completions", none, [], gs "Bearer sk-real",
            [], [], [], gs "10.0.0.9:1234"⟩
    ∧ (∃ e, GroqValidateAPIKey
        ⟨gs "/groq/v1/chat/completions", none, [], gs "Bearer other",
          [], [], [], gs "10.0.0.9:1234"⟩
        ⟨fun k => if k = gs "iw:abcd1234" then (gs "sk-real", gs "groq", none)
          else (k, gs "openai", none)⟩ = Except.error e)
    ∧ GroqValidateAPIKey
        ⟨gs "/groq/v1/chat/completions", none, [], [], [], [], [],
          gs "10.0.0.9:1234"⟩
        ⟨fun k => if k = gs "iw:abcd1234" then (gs "sk-real", gs "groq", none)
          else (k, gs "openai", none)⟩
      = Except.ok
          ⟨gs "/groq/v1/chat/completions", none, [], [], [], [], [],
            gs "10.0.0.9:1234"⟩ := by
  refine ⟨?_, ?_, ?_⟩
  · have h := ((claim_C9_groq_key_validation
      ⟨gs "/groq/v1/chat/completions", none, [], gs "Bearer iw:abcd1234",
        [], [], [], gs "10.0.0.9:1234"⟩
      ⟨fun k => if k = gs "iw:abcd1234" then (gs "sk-real", gs "groq", none)
        else (k, gs "openai", none)⟩).2.2 (gs "sk-real") (gs "groq")
      (by decide) (by decide)).2 (Or.inr rfl)
    rw [h]
    exact congrArg Except.ok (by decide)
  · exact ((claim_C9_groq_key_validation
      ⟨gs "/groq/v1/chat/completions", none, [], gs "Bearer other",
        [], [], [], gs "10.0.0.9:1234"⟩
      ⟨fun k => if k = gs "iw:abcd1234" then (gs "sk-real", gs "groq", none)
        else (k, gs "openai", none)⟩).2.2 (gs "other") (gs "openai")
      (by decide) (by decide)).1.mpr (by decide)
  · exact (claim_C9_groq_key_validation
      ⟨gs "/groq/v1/chat/completions", none, [], [], [], [], [],
        gs "10.0.0.9:1234"⟩
      ⟨fun k => if k = gs "iw:abcd1234" then (gs "sk-real", gs "groq", none)
        else (k, gs "openai", none)⟩).1 rfl
